import Mathlib

/-!
Shallow embedding of `src/pages/args_classifier.py` (ARG classifier and
mobility analyzer page).

Modelling conventions:
* A pandas scalar that may be NaN is `F := Option ℚ`: `none` models a NaN
  float, `some q` a real value.  Arithmetic on `F` propagates `none`, and
  division returns `none` when the divisor is zero or NaN (in every reachable
  division-by-zero here the numerator is also zero, so the float result is
  NaN as well).
* A DataFrame is column-oriented: a list of (column name, column values)
  pairs, all columns of one table having the same length.  Row order is the
  order of each value list.
* Python exceptions (`ValueError` from the validator, pandas `KeyError` from
  a missing column access) become `Except PipelineError`.
* `st.*` rendering calls are side effects on the UI only; the embedding keeps
  the data they would render.
-/

/-- A possibly-NaN float value. `none` is NaN. -/
abbrev F := Option ℚ

/-- NaN-propagating addition (pandas elementwise `+`). -/
def fAdd : F → F → F
  | some a, some b => some (a + b)
  | _, _ => none

/-- NaN-propagating subtraction. -/
def fSub : F → F → F
  | some a, some b => some (a - b)
  | _, _ => none

/-- Scalar multiple of a possibly-NaN value (`0.15 * series`). -/
def fMulF (c : ℚ) : F → F := Option.map (fun x => c * x)

/-- Division of possibly-NaN values; division by zero yields NaN.  In this
pipeline the only reachable division by zero has a zero numerator, where the
float result is indeed NaN. -/
def fDiv : F → F → F
  | some a, some b => if b = 0 then none else some (a / b)
  | _, _ => none

/-- Division of a real value by a possibly-absent scalar maximum
(`series / series.max()` elementwise, the element being real). -/
def qDivF (a : ℚ) : F → F
  | none => none
  | some b => if b = 0 then none else some (a / b)

/-- Python float comparison `x >= c`: False when x is NaN. -/
def fGeQ (x : F) (c : ℚ) : Bool :=
  match x with
  | none => false
  | some a => decide (c ≤ a)

/-- pandas `Series.max()` on a real-valued column: NaN (`none`) on an empty
series, otherwise the maximum. -/
def listMax (l : List ℚ) : Option ℚ :=
  match l with
  | [] => none
  | x :: xs => some (xs.foldl max x)

/-- The maximum of a nonempty rational list (`0` on the empty list, which is
never used on one). -/
def qListMax (l : List ℚ) : ℚ :=
  match l with
  | [] => 0
  | x :: xs => xs.foldl max x

/-- The minimum of a nonempty rational list (`0` on the empty list, which is
never used on one). -/
def qListMin (l : List ℚ) : ℚ :=
  match l with
  | [] => 0
  | x :: xs => xs.foldl min x

/-- One step of a NaN-skipping maximum fold. -/
def fMaxStep (acc x : F) : F :=
  match acc, x with
  | none, x => x
  | some a, none => some a
  | some a, some b => some (max a b)

/-- One step of a NaN-skipping minimum fold. -/
def fMinStep (acc x : F) : F :=
  match acc, x with
  | none, x => x
  | some a, none => some a
  | some a, some b => some (min a b)

/-- pandas `Series.max()` with default `skipna=True` over possibly-NaN
values: the maximum of the real entries, NaN if there are none. -/
def fListMax (l : List F) : F := l.foldl fMaxStep none

/-- pandas `Series.min()` with default `skipna=True`. -/
def fListMin (l : List F) : F := l.foldl fMinStep none

/-- A DataFrame: named columns in order, each a list of cell values
(row order). -/
abbrev Table := List (String × List ℚ)

/-- The names of the columns of a table (`data.columns`). -/
def cols (t : Table) : List String := t.map Prod.fst

/-- Column membership test (`col in data.columns`). -/
def hasCol (t : Table) (name : String) : Bool :=
  (cols t).contains name

/-- Look up a column by name (`data[name]`), `none` when absent. -/
def getCol (t : Table) (name : String) : Option (List ℚ) :=
  (t.find? (fun p => p.1 = name)).map Prod.snd

/-- Errors a pipeline run can end in. -/
inductive PipelineError where
  /-- `model is None`: the classifier artifact was absent at startup. -/
  | modelUnavailable : PipelineError
  /-- `ValueError` raised by `extract_features`, carrying the missing
  column names. -/
  | missingColumns (missing : List String) : PipelineError
  /-- pandas `KeyError` from accessing an absent column. -/
  | keyError (col : String) : PipelineError
deriving DecidableEq, Repr

/-- Column access that raises `KeyError` when the column is absent
(`self.arg_data[name]`). -/
def getColE (t : Table) (name : String) : Except PipelineError (List ℚ) :=
  match getCol t name with
  | some v => Except.ok v
  | none => Except.error (PipelineError.keyError name)

/-- The 11 required feature columns, in source order
(`required_columns` in `extract_features`). -/
def required_columns : List String :=
  ["NearestARGDistance", "AverageARGDistance", "CommunicationEfficiency",
   "PositiveTopologyCoefficient", "Degree", "ClusteringCoefficient",
   "BetweennessCentrality", "ClosenessCentrality", "Eccentricity",
   "NeighborhoodConnectivity", "TopologicalCoefficient"]

/-- `extract_features(data)`: if every required column is present, return
`data[required_columns]` (the sub-table restricted to the 11 columns, in
required order, rows unchanged); otherwise raise `ValueError` carrying the
list of missing columns, in required order. -/
def extract_features (data : Table) : Except PipelineError Table :=
  if required_columns.all (fun col => hasCol data col) then
    Except.ok (required_columns.map (fun col => (col, (getCol data col).getD [])))
  else
    Except.error (PipelineError.missingColumns
      (required_columns.filter (fun col => ¬ hasCol data col)))

/-- The raw mobility score series of `_calculate_mobility_potential`
(before normalization), from the six column value lists, elementwise:
`0.2*CE + 0.15*(Deg/Deg.max()) + 0.2*(BC/BC.max()) + 0.15*CC + 0.15*PTC
+ 0.15*(NC/NC.max())`.  The series length is the table row count
(= the length of each column). -/
def rawMobilityScores (ce deg bc cc ptc nc : List ℚ) : List F :=
  let dmax := listMax deg
  let bmax := listMax bc
  let nmax := listMax nc
  (List.range ce.length).map fun i =>
    fAdd
      (fAdd
        (fAdd
          (fAdd
            (fAdd (some ((0.2 : ℚ) * ce.getD i 0))
              (fMulF (0.15 : ℚ) (qDivF (deg.getD i 0) dmax)))
            (fMulF (0.2 : ℚ) (qDivF (bc.getD i 0) bmax)))
          (some ((0.15 : ℚ) * cc.getD i 0)))
        (some ((0.15 : ℚ) * ptc.getD i 0)))
      (fMulF (0.15 : ℚ) (qDivF (nc.getD i 0) nmax))

/-- Min-max normalization of the raw score series:
`(scores - scores.min()) / (scores.max() - scores.min())`. -/
def normalizePotential (raws : List F) : List F :=
  raws.map fun r => fDiv (fSub r (fListMin raws)) (fSub (fListMax raws) (fListMin raws))

/-- The six column reads of `_calculate_mobility_potential`, in the order
the Python expression evaluates them, then raw scoring and normalization.
This is what `ARGMobilityAnalyzer.__init__` stores as
`self.mobility_potential`. -/
def calcMobilityPotential (t : Table) : Except PipelineError (List F) := do
  let ce ← getColE t "CommunicationEfficiency"
  let deg ← getColE t "Degree"
  let bc ← getColE t "BetweennessCentrality"
  let cc ← getColE t "ClusteringCoefficient"
  let ptc ← getColE t "PositiveTopologyCoefficient"
  let nc ← getColE t "NeighborhoodConnectivity"
  pure (normalizePotential (rawMobilityScores ce deg bc cc ptc nc))

/-- The category lambda of `analyze_mobility`: `x >= 0.7` yields High,
else `x >= 0.3` yields Moderate, else Low.  A NaN potential fails both
comparisons and lands in Low. -/
def mobility_category (x : F) : String :=
  if fGeQ x (0.7 : ℚ) then "🟢 High Mobility"
  else if fGeQ x (0.3 : ℚ) then "🟡 Moderate Mobility"
  else "🔴 Low Mobility"

/-- `analyze_mobility`: the potential column and the category column it
adds to the result table. -/
def analyze_mobility (t : Table) : Except PipelineError (List F × List String) := do
  let pots ← calcMobilityPotential t
  pure (pots, pots.map mobility_category)

/-- The prediction remap `pd.Series(predictions).map({1: ARG, 0: Non-ARG})`:
any other value maps to NaN (`none`). -/
def labelMap (p : ℤ) : Option String :=
  if p = 1 then some "🟢 ARG"
  else if p = 0 then some "🔴 Non-ARG"
  else none

/-- `Series.value_counts()` on a string column: each distinct value with its
occurrence count.  (pandas presents the pairs sorted by descending count;
the properties stated below only concern the multiset of pairs, so the
embedding keeps the distinct values in `List.dedup` order.) -/
def value_counts (xs : List String) : List (String × Nat) :=
  xs.dedup.map (fun v => (v, xs.count v))

/-- `Series.value_counts()` on a possibly-NaN string column: NaN entries are
dropped (`dropna=True`, the pandas default). -/
def value_counts_opt (xs : List (Option String)) : List (String × Nat) :=
  value_counts (xs.filterMap id)

/-- The sum of the counts of a distribution summary. -/
def sumCounts (counts : List (String × Nat)) : Nat :=
  (counts.map Prod.snd).sum

instance {ε α : Type} [DecidableEq ε] [DecidableEq α] : DecidableEq (Except ε α)
  | Except.ok a, Except.ok b =>
    if h : a = b then isTrue (by rw [h]) else isFalse (by simp [h])
  | Except.ok _, Except.error _ => isFalse (by simp)
  | Except.error _, Except.ok _ => isFalse (by simp)
  | Except.error e, Except.error f =>
    if h : e = f then isTrue (by rw [h]) else isFalse (by simp [h])

/-- The task selector of the sidebar. -/
inductive TaskChoice where
  | classification : TaskChoice
  | mobility : TaskChoice
deriving DecidableEq

/-- The data a successful run renders and offers for download. -/
inductive Output where
  /-- Classification: the remapped label per row, and the pie-chart
  distribution counts. -/
  | classified (labels : List (Option String)) (counts : List (String × Nat)) : Output
  /-- Mobility: the potential and category per row, and the bar-chart
  distribution counts. -/
  | scored (pots : List F) (cats : List String) (counts : List (String × Nat)) : Output
deriving DecidableEq

/-- The distribution summary of an output. -/
def Output.summary : Output → List (String × Nat)
  | Output.classified _ counts => counts
  | Output.scored _ _ counts => counts

/-- A loaded classifier model: an opaque capability mapping a feature table
to one integer label per row (`model.predict`). -/
abbrev Model := Table → List ℤ

/-- Module-level model loading (lines 56-62): a total function of whether the
artifact file exists — absence produces `none` plus a UI warning, never an
exception, so page load cannot crash. -/
def initModel (artifactPresent : Bool) (artifact : Model) : Option Model :=
  if artifactPresent then some artifact else none

/-- The classification branch of `main` (lines 128-160): refuse when the
model is absent; validate via `extract_features`; predict; remap labels;
display `input_data[["Node","Predictions"]]` (KeyError when `Node` is
absent, before any chart or download is produced); then count. -/
def runClassification (model : Option Model) (input : Table) :
    Except PipelineError Output :=
  match model with
  | none => Except.error PipelineError.modelUnavailable
  | some predict =>
    match extract_features input with
    | Except.error e => Except.error e
    | Except.ok features =>
      let labels := (predict features).map labelMap
      if hasCol input "Node" then
        Except.ok (Output.classified labels (value_counts_opt labels))
      else
        Except.error (PipelineError.keyError "Node")

/-- The mobility branch of `main` (lines 162-188): run the analyzer, display
`results[["Node","mobility_potential","mobility_category"]]` (KeyError when
`Node` is absent), then count. -/
def runMobility (input : Table) : Except PipelineError Output :=
  match analyze_mobility input with
  | Except.error e => Except.error e
  | Except.ok (pots, cats) =>
    if hasCol input "Node" then
      Except.ok (Output.scored pots cats (value_counts cats))
    else
      Except.error (PipelineError.keyError "Node")

/-- One pipeline run of `main` on an uploaded, parsed table: dispatch on the
selected task.  Every raised exception is caught by the surrounding
`except Exception` and reported; a run that errors renders no result table,
chart or download. -/
def runPipeline (model : Option Model) (task : TaskChoice) (input : Table) :
    Except PipelineError Output :=
  match task with
  | TaskChoice.classification => runClassification model input
  | TaskChoice.mobility => runMobility input

/-- One input record: the 11 required numeric topology features of §3. -/
structure Row where
  NearestARGDistance : ℚ
  AverageARGDistance : ℚ
  CommunicationEfficiency : ℚ
  PositiveTopologyCoefficient : ℚ
  Degree : ℚ
  ClusteringCoefficient : ℚ
  BetweennessCentrality : ℚ
  ClosenessCentrality : ℚ
  Eccentricity : ℚ
  NeighborhoodConnectivity : ℚ
  TopologicalCoefficient : ℚ
deriving DecidableEq

/-- The table of an uploaded CSV holding a `Node` identifier column and the
11 required feature columns, one row per `Row`.  (`Node` values are opaque
identifiers the pipeline never computes on; they are carried as numbers
here.) -/
def tableOfRows (node : List ℚ) (rows : List Row) : Table :=
  [("Node", node),
   ("NearestARGDistance", rows.map Row.NearestARGDistance),
   ("AverageARGDistance", rows.map Row.AverageARGDistance),
   ("CommunicationEfficiency", rows.map Row.CommunicationEfficiency),
   ("PositiveTopologyCoefficient", rows.map Row.PositiveTopologyCoefficient),
   ("Degree", rows.map Row.Degree),
   ("ClusteringCoefficient", rows.map Row.ClusteringCoefficient),
   ("BetweennessCentrality", rows.map Row.BetweennessCentrality),
   ("ClosenessCentrality", rows.map Row.ClosenessCentrality),
   ("Eccentricity", rows.map Row.Eccentricity),
   ("NeighborhoodConnectivity", rows.map Row.NeighborhoodConnectivity),
   ("TopologicalCoefficient", rows.map Row.TopologicalCoefficient)]

/-- The raw mobility score of one row as the spec states it (claim wording):
`0.20·CE + 0.15·(Degree/max Degree) + 0.20·(BC/max BC) + 0.15·CC + 0.15·PTC
+ 0.15·(NC/max NC)`, the maxima taken batch-wide.  This is the spec-side
formula a refinement theorem compares the code against. -/
def specRawScore (rows : List Row) (r : Row) : ℚ :=
  0.2 * r.CommunicationEfficiency
    + 0.15 * (r.Degree / qListMax (rows.map Row.Degree))
    + 0.2 * (r.BetweennessCentrality / qListMax (rows.map Row.BetweennessCentrality))
    + 0.15 * r.ClusteringCoefficient
    + 0.15 * r.PositiveTopologyCoefficient
    + 0.15 * (r.NeighborhoodConnectivity / qListMax (rows.map Row.NeighborhoodConnectivity))

/-- The batch minimum of the spec-side raw scores. -/
def specMin (rows : List Row) : ℚ := qListMin (rows.map (specRawScore rows))

/-- The batch maximum of the spec-side raw scores. -/
def specMax (rows : List Row) : ℚ := qListMax (rows.map (specRawScore rows))

/-- The raw mobility score series the analyzer computes on a `tableOfRows`
batch: `rawMobilityScores` applied to the six feature columns. -/
def rowRawScores (rows : List Row) : List F :=
  rawMobilityScores (rows.map Row.CommunicationEfficiency) (rows.map Row.Degree)
    (rows.map Row.BetweennessCentrality) (rows.map Row.ClusteringCoefficient)
    (rows.map Row.PositiveTopologyCoefficient) (rows.map Row.NeighborhoodConnectivity)

lemma le_foldl_max (l : List ℚ) : ∀ a x : ℚ, x = a ∨ x ∈ l → x ≤ l.foldl max a := by
  induction l with
  | nil =>
    intro a x h
    rcases h with rfl | h
    · exact le_refl x
    · exact absurd h (List.not_mem_nil x)
  | cons y l ih =>
    intro a x h
    simp only [List.foldl_cons]
    rcases h with rfl | h
    · exact le_trans (le_max_left x y) (ih (max x y) (max x y) (Or.inl rfl))
    · rcases List.mem_cons.mp h with rfl | hmem
      · exact le_trans (le_max_right a x) (ih (max a x) (max a x) (Or.inl rfl))
      · exact ih (max a y) x (Or.inr hmem)

lemma foldl_min_le (l : List ℚ) : ∀ a x : ℚ, x = a ∨ x ∈ l → l.foldl min a ≤ x := by
  induction l with
  | nil =>
    intro a x h
    rcases h with rfl | h
    · exact le_refl x
    · exact absurd h (List.not_mem_nil x)
  | cons y l ih =>
    intro a x h
    simp only [List.foldl_cons]
    rcases h with rfl | h
    · exact le_trans (ih (min x y) (min x y) (Or.inl rfl)) (min_le_left x y)
    · rcases List.mem_cons.mp h with rfl | hmem
      · exact le_trans (ih (min a x) (min a x) (Or.inl rfl)) (min_le_right a x)
      · exact ih (min a y) x (Or.inr hmem)

lemma listMax_eq (l : List ℚ) (h : l ≠ []) : listMax l = some (qListMax l) := by
  cases l with
  | nil => exact absurd rfl h
  | cons x xs => rfl

lemma le_qListMax (l : List ℚ) (x : ℚ) (h : x ∈ l) : x ≤ qListMax l := by
  cases l with
  | nil => exact absurd h (List.not_mem_nil x)
  | cons y ys =>
    rcases List.mem_cons.mp h with rfl | hmem
    · exact le_foldl_max ys x x (Or.inl rfl)
    · exact le_foldl_max ys y x (Or.inr hmem)

lemma qListMin_le (l : List ℚ) (x : ℚ) (h : x ∈ l) : qListMin l ≤ x := by
  cases l with
  | nil => exact absurd h (List.not_mem_nil x)
  | cons y ys =>
    rcases List.mem_cons.mp h with rfl | hmem
    · exact foldl_min_le ys x x (Or.inl rfl)
    · exact foldl_min_le ys y x (Or.inr hmem)

lemma foldl_fMaxStep_some (l : List ℚ) :
    ∀ a : ℚ, List.foldl fMaxStep (some a) (l.map some) = some (l.foldl max a) := by
  induction l with
  | nil => intro a; rfl
  | cons x xs ih => intro a; simpa [fMaxStep] using ih (max a x)

lemma foldl_fMinStep_some (l : List ℚ) :
    ∀ a : ℚ, List.foldl fMinStep (some a) (l.map some) = some (l.foldl min a) := by
  induction l with
  | nil => intro a; rfl
  | cons x xs ih => intro a; simpa [fMinStep] using ih (min a x)

lemma fListMax_map_some (l : List ℚ) (h : l ≠ []) :
    fListMax (l.map some) = some (qListMax l) := by
  cases l with
  | nil => exact absurd rfl h
  | cons x xs =>
    show List.foldl fMaxStep (fMaxStep none (some x)) (xs.map some) = _
    simpa [fMaxStep] using foldl_fMaxStep_some xs x

lemma fListMin_map_some (l : List ℚ) (h : l ≠ []) :
    fListMin (l.map some) = some (qListMin l) := by
  cases l with
  | nil => exact absurd rfl h
  | cons x xs =>
    show List.foldl fMinStep (fMinStep none (some x)) (xs.map some) = _
    simpa [fMinStep] using foldl_fMinStep_some xs x

lemma fListMax_all_none (l : List F) (h : ∀ x ∈ l, x = none) : fListMax l = none := by
  induction l with
  | nil => rfl
  | cons x xs ih =>
    have hx : x = none := h x (List.mem_cons_self x xs)
    show List.foldl fMaxStep (fMaxStep none x) xs = none
    rw [hx]
    exact ih (fun y hy => h y (List.mem_cons_of_mem x hy))

lemma fListMin_all_none (l : List F) (h : ∀ x ∈ l, x = none) : fListMin l = none := by
  induction l with
  | nil => rfl
  | cons x xs ih =>
    have hx : x = none := h x (List.mem_cons_self x xs)
    show List.foldl fMinStep (fMinStep none x) xs = none
    rw [hx]
    exact ih (fun y hy => h y (List.mem_cons_of_mem x hy))

lemma getCol_tableOfRows_CE (node : List ℚ) (rows : List Row) :
    getCol (tableOfRows node rows) "CommunicationEfficiency" =
      some (rows.map Row.CommunicationEfficiency) := rfl

lemma getCol_tableOfRows_Degree (node : List ℚ) (rows : List Row) :
    getCol (tableOfRows node rows) "Degree" = some (rows.map Row.Degree) := rfl

lemma getCol_tableOfRows_BC (node : List ℚ) (rows : List Row) :
    getCol (tableOfRows node rows) "BetweennessCentrality" =
      some (rows.map Row.BetweennessCentrality) := rfl

lemma calc_tableOfRows (node : List ℚ) (rows : List Row) :
    calcMobilityPotential (tableOfRows node rows) =
      Except.ok (normalizePotential (rowRawScores rows)) := rfl

lemma analyze_tableOfRows (node : List ℚ) (rows : List Row) :
    analyze_mobility (tableOfRows node rows) =
      Except.ok (normalizePotential (rowRawScores rows),
        (normalizePotential (rowRawScores rows)).map mobility_category) := rfl

lemma rowRawScores_eq_spec (rows : List Row) (hne : rows ≠ [])
    (hD : qListMax (rows.map Row.Degree) ≠ 0)
    (hB : qListMax (rows.map Row.BetweennessCentrality) ≠ 0)
    (hN : qListMax (rows.map Row.NeighborhoodConnectivity) ≠ 0) :
    rowRawScores rows = (rows.map (specRawScore rows)).map some := by
  have hmapne : ∀ (f : Row → ℚ), rows.map f ≠ [] := by
    intro f h
    exact hne (List.map_eq_nil_iff.mp h)
  apply List.ext_getElem
  · simp [rowRawScores, rawMobilityScores]
  · intro i h1 h2
    have hi : i < rows.length := by
      simpa [rowRawScores, rawMobilityScores] using h1
    simp only [rowRawScores, rawMobilityScores, listMax_eq _ (hmapne Row.Degree),
      listMax_eq _ (hmapne Row.BetweennessCentrality),
      listMax_eq _ (hmapne Row.NeighborhoodConnectivity)]
    rw [List.getElem_map, List.getElem_map, List.getElem_map, List.getElem_range]
    have hgetD : ∀ (f : Row → ℚ), (rows.map f).getD i 0 = f (rows.get ⟨i, hi⟩) := by
      intro f
      rw [List.getD_eq_getElem (rows.map f) 0 (by simpa using hi), List.getElem_map]
      rfl
    rw [hgetD, hgetD, hgetD, hgetD, hgetD, hgetD]
    simp only [qDivF, hD, hB, hN, if_false]
    rfl

lemma normalize_map_some (l : List ℚ) (hne : l ≠ [])
    (hMm : qListMax l - qListMin l ≠ 0) :
    normalizePotential (l.map some) =
      (l.map (fun x => (x - qListMin l) / (qListMax l - qListMin l))).map some := by
  unfold normalizePotential
  rw [fListMax_map_some l hne, fListMin_map_some l hne, List.map_map, List.map_map]
  apply List.map_congr_left
  intro x _
  simp only [Function.comp_apply, fSub, fDiv, hMm, if_false]

lemma calc_spec (node : List ℚ) (rows : List Row) (hne : rows ≠ [])
    (hD : qListMax (rows.map Row.Degree) ≠ 0)
    (hB : qListMax (rows.map Row.BetweennessCentrality) ≠ 0)
    (hN : qListMax (rows.map Row.NeighborhoodConnectivity) ≠ 0)
    (hMm : specMax rows - specMin rows ≠ 0) :
    calcMobilityPotential (tableOfRows node rows) =
      Except.ok ((rows.map (fun r =>
        (specRawScore rows r - specMin rows) / (specMax rows - specMin rows))).map some) := by
  rw [calc_tableOfRows, rowRawScores_eq_spec rows hne hD hB hN,
    normalize_map_some _ (by simpa using hne) hMm, List.map_map, List.map_map]
  simp only [List.map_map, Function.comp_def, specMin, specMax]

lemma rowRawScores_all_none (rows : List Row) (hne : rows ≠ [])
    (h : qListMax (rows.map Row.Degree) = 0 ∨
      qListMax (rows.map Row.BetweennessCentrality) = 0 ∨
      qListMax (rows.map Row.NeighborhoodConnectivity) = 0) :
    ∀ x ∈ rowRawScores rows, x = none := by
  intro x hx
  have hmapne : ∀ (f : Row → ℚ), rows.map f ≠ [] := by
    intro f hf
    exact hne (List.map_eq_nil_iff.mp hf)
  simp only [rowRawScores, rawMobilityScores, List.mem_map, List.mem_range] at hx
  obtain ⟨i, hi, rfl⟩ := hx
  rw [listMax_eq _ (hmapne Row.Degree), listMax_eq _ (hmapne Row.BetweennessCentrality),
    listMax_eq _ (hmapne Row.NeighborhoodConnectivity)]
  by_cases hD : qListMax (rows.map Row.Degree) = 0
  · simp [qDivF, hD, fMulF, fAdd]
  · by_cases hB : qListMax (rows.map Row.BetweennessCentrality) = 0
    · simp [qDivF, hD, hB, fMulF, fAdd]
    · have hN : qListMax (rows.map Row.NeighborhoodConnectivity) = 0 := by tauto
      simp [qDivF, hD, hB, hN, fMulF, fAdd]

lemma qListMin_le_qListMax (l : List ℚ) (h : l ≠ []) : qListMin l ≤ qListMax l := by
  cases l with
  | nil => exact absurd rfl h
  | cons x xs =>
    exact le_trans (qListMin_le (x :: xs) x (List.mem_cons_self x xs))
      (le_qListMax (x :: xs) x (List.mem_cons_self x xs))

lemma sumCounts_value_counts (xs : List String) :
    sumCounts (value_counts xs) = xs.length := by
  unfold sumCounts value_counts
  rw [List.map_map]
  simpa [Function.comp_def] using List.sum_map_count_dedup_eq_length xs

lemma length_filterMap_id_all_some (xs : List (Option String))
    (h : ∀ x ∈ xs, x ≠ none) : (xs.filterMap id).length = xs.length := by
  induction xs with
  | nil => rfl
  | cons x rest ih =>
    cases x with
    | none => exact absurd rfl (h none (List.mem_cons_self none rest))
    | some a =>
      simp only [List.filterMap_cons, id, List.length_cons]
      rw [ih (fun y hy => h y (List.mem_cons_of_mem _ hy))]

lemma sumCounts_value_counts_opt (xs : List (Option String))
    (h : ∀ x ∈ xs, x ≠ none) :
    sumCounts (value_counts_opt xs) = xs.length := by
  unfold value_counts_opt
  rw [sumCounts_value_counts, length_filterMap_id_all_some xs h]

lemma getCol_of_hasCol (t : Table) (name : String) :
    hasCol t name = true → ∃ v, getCol t name = some v := by
  induction t with
  | nil =>
    intro h
    exact absurd h (by simp [hasCol, cols])
  | cons p rest ih =>
    intro h
    by_cases hp : p.1 = name
    · exact ⟨p.2, by simp [getCol, List.find?, hp]⟩
    · have hr : hasCol rest name = true := by
        simp only [hasCol, cols, List.map_cons, List.contains_cons, Bool.or_eq_true,
          beq_iff_eq] at h
        rcases h with h | h
        · exact absurd h.symm hp
        · exact h
      obtain ⟨v, hv⟩ := ih hr
      refine ⟨v, ?_⟩
      simpa [getCol, List.find?, hp] using hv

lemma runMobility_ok (t : Table)
    (h1 : hasCol t "CommunicationEfficiency" = true)
    (h2 : hasCol t "Degree" = true)
    (h3 : hasCol t "BetweennessCentrality" = true)
    (h4 : hasCol t "ClusteringCoefficient" = true)
    (h5 : hasCol t "PositiveTopologyCoefficient" = true)
    (h6 : hasCol t "NeighborhoodConnectivity" = true)
    (h7 : hasCol t "Node" = true) :
    (runPipeline none TaskChoice.mobility t).isOk = true ∧
      ∀ model : Option Model, runPipeline model TaskChoice.mobility t =
        runPipeline none TaskChoice.mobility t := by
  obtain ⟨ce, hce⟩ := getCol_of_hasCol t _ h1
  obtain ⟨deg, hdeg⟩ := getCol_of_hasCol t _ h2
  obtain ⟨bc, hbc⟩ := getCol_of_hasCol t _ h3
  obtain ⟨cc, hcc⟩ := getCol_of_hasCol t _ h4
  obtain ⟨ptc, hptc⟩ := getCol_of_hasCol t _ h5
  obtain ⟨nc, hnc⟩ := getCol_of_hasCol t _ h6
  constructor
  · simp [runPipeline, runMobility, analyze_mobility, calcMobilityPotential, getColE,
      hce, hdeg, hbc, hcc, hptc, hnc, h7, Bind.bind, Except.bind, Pure.pure, Except.pure,
      Except.isOk, Except.toBool]
  · intro model
    rfl

lemma extract_features_err (t : Table)
    (h : required_columns.all (fun c => hasCol t c) = false) :
    extract_features t = Except.error (PipelineError.missingColumns
      (required_columns.filter (fun c => ¬ hasCol t c))) := by
  simp [extract_features, h]

lemma extract_features_ok (t : Table)
    (h : required_columns.all (fun c => hasCol t c) = true) :
    extract_features t =
      Except.ok (required_columns.map (fun col => (col, (getCol t col).getD []))) := by
  simp [extract_features, h]

/-- A two-row batch with distinct raw scores (row 0 attains the batch
minimum, row 1 the batch maximum), used to instantiate theorems with
hypotheses on concrete data. -/
def sampleRows : List Row :=
  [{ NearestARGDistance := 1, AverageARGDistance := 1, CommunicationEfficiency := 0,
     PositiveTopologyCoefficient := 0, Degree := 1, ClusteringCoefficient := 0,
     BetweennessCentrality := 1, ClosenessCentrality := 1, Eccentricity := 1,
     NeighborhoodConnectivity := 1, TopologicalCoefficient := 1 },
   { NearestARGDistance := 2, AverageARGDistance := 2, CommunicationEfficiency := 1,
     PositiveTopologyCoefficient := 1, Degree := 2, ClusteringCoefficient := 1,
     BetweennessCentrality := 2, ClosenessCentrality := 2, Eccentricity := 2,
     NeighborhoodConnectivity := 2, TopologicalCoefficient := 2 }]

/-- A table holding the Node column and the six columns the mobility formula
reads, but missing NearestARGDistance, AverageARGDistance,
ClosenessCentrality, Eccentricity and TopologicalCoefficient of the 11
required feature columns. -/
def c1Table : Table :=
  [("Node", [1, 2]),
   ("CommunicationEfficiency", [0, 1]),
   ("Degree", [1, 2]),
   ("BetweennessCentrality", [1, 2]),
   ("ClusteringCoefficient", [0, 1]),
   ("PositiveTopologyCoefficient", [0, 1]),
   ("NeighborhoodConnectivity", [1, 2])]

/-- Claim C1 fails on the code: a table missing the required column
NearestARGDistance (one of the 11) still runs the score-mobility task to a
successful output, so the run does not fail with MissingColumns under that
task. -/
theorem C1_counterexample :
    "NearestARGDistance" ∈ required_columns ∧
      hasCol c1Table "NearestARGDistance" = false ∧
      (runPipeline none TaskChoice.mobility c1Table).isOk = true :=
  ⟨by decide, by decide, by decide⟩

/-- Claim C1 (amended): with a loaded model, the classify task on a table
missing at least one required column fails with MissingColumns (naming the
missing columns) before any prediction and produces no output; the
score-mobility task performs no 11-column validation — it succeeds whenever
the six formula columns and Node are present, even if other required
columns are missing. -/
theorem C1_validation_split (predict : Model) (t : Table)
    (hmiss : required_columns.all (fun c => hasCol t c) = false)
    (u : Table)
    (h1 : hasCol u "CommunicationEfficiency" = true)
    (h2 : hasCol u "Degree" = true)
    (h3 : hasCol u "BetweennessCentrality" = true)
    (h4 : hasCol u "ClusteringCoefficient" = true)
    (h5 : hasCol u "PositiveTopologyCoefficient" = true)
    (h6 : hasCol u "NeighborhoodConnectivity" = true)
    (h7 : hasCol u "Node" = true) :
    runPipeline (some predict) TaskChoice.classification t =
      Except.error (PipelineError.missingColumns
        (required_columns.filter (fun c => ¬ hasCol t c))) ∧
      (runPipeline none TaskChoice.mobility u).isOk = true := by
  constructor
  · simp [runPipeline, runClassification, extract_features_err t hmiss]
  · exact (runMobility_ok u h1 h2 h3 h4 h5 h6 h7).1

/-- Witness for C1_validation_split at concrete tables: `c1Table` (missing
five required columns) fails classification with exactly those columns, and
the mobility run on it succeeds. -/
theorem C1_validation_split_witness :
    runPipeline (some (fun _ => [1])) TaskChoice.classification c1Table =
      Except.error (PipelineError.missingColumns
        ["NearestARGDistance", "AverageARGDistance", "ClosenessCentrality",
         "Eccentricity", "TopologicalCoefficient"]) ∧
      (runPipeline none TaskChoice.mobility c1Table).isOk = true := by
  have h := C1_validation_split (fun _ => [1]) c1Table (by decide) c1Table
    (by decide) (by decide) (by decide) (by decide) (by decide) (by decide) (by decide)
  exact ⟨h.1.trans (by decide), h.2⟩

lemma normalizePotential_singleton (l : List F) (h : ∃ x, l = [x]) :
    normalizePotential l = [none] := by
  obtain ⟨x, rfl⟩ := h
  cases x with
  | none => rfl
  | some a =>
    show [fDiv (fSub (some a) (fListMin [some a]))
      (fSub (fListMax [some a]) (fListMin [some a]))] = [none]
    show [fDiv (some (a - a)) (some (a - a))] = [none]
    simp [fDiv]

/-- Claim C5 names the intended behavior; the code instead divides by zero
when batch_max = batch_min.  Fully generally: on any single-row upload the
normalization computes (raw - raw) / (raw - raw), the division by zero
yields NaN (modelled as `none`), the NaN silently flows into a successful
run (no error, no sentinel), and the category lambda buckets it as Low
because NaN fails both comparisons. -/
theorem C5_nan_propagates (node : ℚ) (r : Row) :
    analyze_mobility (tableOfRows [node] [r]) =
      Except.ok ([none], ["🔴 Low Mobility"]) ∧
      (runPipeline none TaskChoice.mobility (tableOfRows [node] [r])).isOk = true := by
  have hnorm : normalizePotential (rowRawScores [r]) = [none] :=
    normalizePotential_singleton _ ⟨_, rfl⟩
  constructor
  · rw [analyze_tableOfRows, hnorm]
    rfl
  · show (runMobility (tableOfRows [node] [r])).isOk = true
    rw [runMobility, analyze_tableOfRows]
    rfl

/-- Claim C6: with the model artifact absent, module-level loading returns
None without raising (page load does not crash), every classify run fails
with ModelUnavailable, and the mobility task is unaffected by the model and
still succeeds on a table with the analyzer's columns and Node present. -/
theorem C6_model_absent (a : Model) (t : Table)
    (h1 : hasCol t "CommunicationEfficiency" = true)
    (h2 : hasCol t "Degree" = true)
    (h3 : hasCol t "BetweennessCentrality" = true)
    (h4 : hasCol t "ClusteringCoefficient" = true)
    (h5 : hasCol t "PositiveTopologyCoefficient" = true)
    (h6 : hasCol t "NeighborhoodConnectivity" = true)
    (h7 : hasCol t "Node" = true) :
    initModel false a = none ∧
      (∀ u : Table, runPipeline none TaskChoice.classification u =
        Except.error PipelineError.modelUnavailable) ∧
      (∀ model : Option Model, runPipeline model TaskChoice.mobility t =
        runPipeline none TaskChoice.mobility t) ∧
      (runPipeline none TaskChoice.mobility t).isOk = true := by
  have hm := runMobility_ok t h1 h2 h3 h4 h5 h6 h7
  exact ⟨rfl, fun u => rfl, hm.2, hm.1⟩

/-- Witness for C6_model_absent on a concrete full table. -/
theorem C6_model_absent_witness :
    initModel false (fun _ => [1]) = none ∧
      runPipeline none TaskChoice.classification c1Table =
        Except.error PipelineError.modelUnavailable ∧
      (runPipeline none TaskChoice.mobility (tableOfRows [1, 2] sampleRows)).isOk = true := by
  have h := C6_model_absent (fun _ => [1]) (tableOfRows [1, 2] sampleRows)
    (by decide) (by decide) (by decide) (by decide) (by decide) (by decide) (by decide)
  exact ⟨h.1, h.2.1 c1Table, h.2.2.2⟩

lemma getCol_map_self (f : String → List ℚ) (names : List String) (c : String)
    (hc : c ∈ names) :
    getCol (names.map (fun n => (n, f n))) c = some (f c) := by
  induction names with
  | nil => exact absurd hc (List.not_mem_nil c)
  | cons n rest ih =>
    by_cases hn : n = c
    · subst hn
      simp [getCol, List.find?]
    · rcases List.mem_cons.mp hc with rfl | hmem
      · exact absurd rfl hn
      · simpa [getCol, List.find?, hn] using ih hmem

lemma cols_map_self (f : String → List ℚ) (names : List String) :
    cols (names.map (fun n => (n, f n))) = names := by
  induction names with
  | nil => rfl
  | cons n rest ih => simpa [cols] using ih

/-- Claim C7: the feature validator fails exactly when some required column
name (exact, case-sensitive match) is absent; the error carries exactly the
missing columns (in required order); on success it returns the sub-table
with exactly the 11 required columns, each column's values (hence the rows
and their order) unchanged. -/
theorem C7_validator (t : Table) :
    ((extract_features t).isOk = false ↔ ∃ c ∈ required_columns, hasCol t c = false) ∧
      (∀ e, extract_features t = Except.error e →
        e = PipelineError.missingColumns
          (required_columns.filter (fun c => ¬ hasCol t c)) ∧
          required_columns.filter (fun c => ¬ hasCol t c) ≠ []) ∧
      (∀ ft, extract_features t = Except.ok ft →
        cols ft = required_columns ∧
          ∀ c ∈ required_columns, getCol ft c = getCol t c) := by
  by_cases hall : required_columns.all (fun c => hasCol t c) = true
  · have hok := extract_features_ok t hall
    refine ⟨?_, ?_, ?_⟩
    · rw [hok]
      simp only [Except.isOk, Except.toBool]
      constructor
      · intro h
        exact absurd h (by simp)
      · rintro ⟨c, hc, hfalse⟩
        have := List.all_eq_true.mp hall c hc
        rw [this] at hfalse
        exact absurd hfalse (by simp)
    · intro e he
      rw [hok] at he
      exact absurd he (by simp)
    · intro ft hft
      rw [hok] at hft
      have hft' := (Except.ok.injEq _ _).mp hft
      subst hft'
      constructor
      · exact cols_map_self _ _
      · intro c hc
        rw [getCol_map_self _ _ c hc]
        obtain ⟨v, hv⟩ := getCol_of_hasCol t c (List.all_eq_true.mp hall c hc)
        rw [hv]
        rfl
  · have hall' : required_columns.all (fun c => hasCol t c) = false :=
      Bool.eq_false_iff.mpr hall
    have herr := extract_features_err t hall'
    have hex : ∃ c ∈ required_columns, hasCol t c = false := by
      rcases List.all_eq_false.mp hall' with ⟨c, hc, hfc⟩
      exact ⟨c, hc, Bool.eq_false_iff.mpr hfc⟩
    refine ⟨?_, ?_, ?_⟩
    · rw [herr]
      simp only [Except.isOk, Except.toBool]
      exact ⟨fun _ => hex, fun _ => trivial⟩
    · intro e he
      rw [herr] at he
      have he' := (Except.error.injEq _ _).mp he
      refine ⟨he'.symm, ?_⟩
      obtain ⟨c, hc, hfc⟩ := hex
      intro hnil
      have hmem : c ∈ required_columns.filter (fun c => ¬ hasCol t c) := by
        rw [List.mem_filter]
        exact ⟨hc, by simp [hfc]⟩
      rw [hnil] at hmem
      exact List.not_mem_nil c hmem
    · intro ft hft
      rw [herr] at hft
      exact absurd hft (by simp)

/-- Witness for C7_validator: on the full sample table validation succeeds
with the 11 required columns and the Degree column unchanged; on `c1Table`
(missing five required columns) it fails naming exactly those. -/
theorem C7_validator_witness :
    (extract_features (tableOfRows [1, 2] sampleRows)).isOk = true ∧
      cols (required_columns.map
        (fun col => (col, (getCol (tableOfRows [1, 2] sampleRows) col).getD []))) =
        required_columns ∧
      getCol (required_columns.map
        (fun col => (col, (getCol (tableOfRows [1, 2] sampleRows) col).getD [])))
        "Degree" = getCol (tableOfRows [1, 2] sampleRows) "Degree" ∧
      PipelineError.missingColumns
        ["NearestARGDistance", "AverageARGDistance", "ClosenessCentrality",
         "Eccentricity", "TopologicalCoefficient"] =
        PipelineError.missingColumns
          (required_columns.filter (fun c => ¬ hasCol c1Table c)) := by
  have hok := (C7_validator (tableOfRows [1, 2] sampleRows)).2.2 _ rfl
  have herr := (C7_validator c1Table).2.1
    (PipelineError.missingColumns
      ["NearestARGDistance", "AverageARGDistance", "ClosenessCentrality",
       "Eccentricity", "TopologicalCoefficient"]) (by decide)
  exact ⟨by decide, hok.1, hok.2 "Degree" (by decide), herr.1⟩

/-- Claim C2: for every row of a validated nonempty batch with nonzero
batch-wide maxima and a nondegenerate raw-score spread, the computed
mobility_potential equals the min-max normalization
(raw - batch_min) / (batch_max - batch_min) of the spec raw-score formula
0.20·CE + 0.15·(Degree/max Degree) + 0.20·(BC/max BC) + 0.15·CC + 0.15·PTC
+ 0.15·(NC/max NC), all maxima and the min/max taken over the uploaded
batch. -/
theorem C2_potential_refines_spec (node : List ℚ) (rows : List Row) (hne : rows ≠ [])
    (hD : qListMax (rows.map Row.Degree) ≠ 0)
    (hB : qListMax (rows.map Row.BetweennessCentrality) ≠ 0)
    (hN : qListMax (rows.map Row.NeighborhoodConnectivity) ≠ 0)
    (hMm : specMax rows ≠ specMin rows)
    (i : ℕ) (hi : i < rows.length) :
    ∀ pots, calcMobilityPotential (tableOfRows node rows) = Except.ok pots →
      pots[i]? = some (some ((specRawScore rows (rows.get ⟨i, hi⟩) - specMin rows) /
        (specMax rows - specMin rows))) := by
  intro pots hok
  rw [calc_spec node rows hne hD hB hN (sub_ne_zero.mpr hMm)] at hok
  have hpots := (Except.ok.injEq _ _).mp hok
  subst hpots
  rw [List.getElem?_map, List.getElem?_map, List.getElem?_eq_getElem hi]
  rfl

/-- Witness for C2 on the concrete two-row sample batch: the hypotheses
hold, the computed potential column is [0, 1], and row 1's potential equals
the normalized spec score, namely 1. -/
theorem C2_witness :
    specMax sampleRows ≠ specMin sampleRows ∧
      calcMobilityPotential (tableOfRows [1, 2] sampleRows) =
        Except.ok [some 0, some 1] ∧
      ([some (0 : ℚ), some 1] : List F)[1]? = some (some 1) := by
  have hne : sampleRows ≠ [] := by simp [sampleRows]
  have hD : qListMax (sampleRows.map Row.Degree) ≠ 0 := by
    norm_num [qListMax, sampleRows]
  have hB : qListMax (sampleRows.map Row.BetweennessCentrality) ≠ 0 := by
    norm_num [qListMax, sampleRows]
  have hN : qListMax (sampleRows.map Row.NeighborhoodConnectivity) ≠ 0 := by
    norm_num [qListMax, sampleRows]
  have hMm : specMax sampleRows ≠ specMin sampleRows := by
    norm_num [specMax, qListMax, specRawScore, specMin, qListMin, sampleRows]
  have hg : (sampleRows.map (fun r => (specRawScore sampleRows r - specMin sampleRows) /
      (specMax sampleRows - specMin sampleRows))).map some = [some 0, some 1] := by
    norm_num [specMax, qListMax, specRawScore, specMin, qListMin, sampleRows]
  have hcalc : calcMobilityPotential (tableOfRows [1, 2] sampleRows) =
      Except.ok [some 0, some 1] := by
    rw [calc_spec [1, 2] sampleRows hne hD hB hN (sub_ne_zero.mpr hMm), hg]
  have happ := C2_potential_refines_spec [1, 2] sampleRows hne hD hB hN hMm 1
    (by norm_num [sampleRows]) [some 0, some 1] hcalc
  refine ⟨hMm, hcalc, happ.trans ?_⟩
  norm_num [specMax, qListMax, specRawScore, specMin, qListMin, sampleRows]

/-- A single row with every feature equal to 1. -/
def rowOnes : Row :=
  { NearestARGDistance := 1, AverageARGDistance := 1, CommunicationEfficiency := 1,
    PositiveTopologyCoefficient := 1, Degree := 1, ClusteringCoefficient := 1,
    BetweennessCentrality := 1, ClosenessCentrality := 1, Eccentricity := 1,
    NeighborhoodConnectivity := 1, TopologicalCoefficient := 1 }

/-- Claim C3: the mobility_category of a row is determined exactly by its
potential, with tiers closed on the lower end: potential ≥ 0.7 is High,
0.3 ≤ potential < 0.7 is Moderate, potential < 0.3 is Low; exactly 0.7 is
High and exactly 0.3 is Moderate; and in every successful analyzer run the
category column is the category function mapped over the potential
column. -/
theorem C3_category_thresholds (x : ℚ) :
    (mobility_category (some x) = "🟢 High Mobility" ↔ (0.7 : ℚ) ≤ x) ∧
      (mobility_category (some x) = "🟡 Moderate Mobility" ↔
        (0.3 : ℚ) ≤ x ∧ x < 0.7) ∧
      (mobility_category (some x) = "🔴 Low Mobility" ↔ x < 0.3) ∧
      mobility_category (some (0.7 : ℚ)) = "🟢 High Mobility" ∧
      mobility_category (some (0.3 : ℚ)) = "🟡 Moderate Mobility" ∧
      (∀ t pots cats, analyze_mobility t = Except.ok (pots, cats) →
        cats = pots.map mobility_category) := by
  have hHM : ("🟢 High Mobility" : String) ≠ "🟡 Moderate Mobility" := by decide
  have hHL : ("🟢 High Mobility" : String) ≠ "🔴 Low Mobility" := by decide
  have hML : ("🟡 Moderate Mobility" : String) ≠ "🔴 Low Mobility" := by decide
  refine ⟨?_, ?_, ?_, by norm_num [mobility_category, fGeQ],
    by norm_num [mobility_category, fGeQ], ?_⟩
  · by_cases h7 : (0.7 : ℚ) ≤ x
    · simp [mobility_category, fGeQ, h7]
    · by_cases h3 : (0.3 : ℚ) ≤ x
      · simp [mobility_category, fGeQ, h7, h3, Ne.symm hHM]
      · simp [mobility_category, fGeQ, h7, h3, Ne.symm hHL]
  · by_cases h7 : (0.7 : ℚ) ≤ x
    · have hx7 : ¬ x < 0.7 := not_lt.mpr h7
      simp [mobility_category, fGeQ, h7, hHM, hx7]
    · by_cases h3 : (0.3 : ℚ) ≤ x
      · have hx7 : x < 0.7 := not_le.mp h7
        simp [mobility_category, fGeQ, h7, h3, hx7]
      · simp [mobility_category, fGeQ, h7, h3, Ne.symm hML]
  · by_cases h7 : (0.7 : ℚ) ≤ x
    · have hx3 : ¬ x < 0.3 := not_lt.mpr (le_trans (by norm_num) h7)
      simp [mobility_category, fGeQ, h7, hHL, hx3]
    · by_cases h3 : (0.3 : ℚ) ≤ x
      · have hx3 : ¬ x < 0.3 := not_lt.mpr h3
        simp [mobility_category, fGeQ, h7, h3, hML, hx3]
      · have hx3 : x < 0.3 := not_le.mp h3
        simp [mobility_category, fGeQ, h7, h3, hx3]
  · intro t pots cats h
    cases hcalc : calcMobilityPotential t with
    | error e => simp [analyze_mobility, hcalc, Bind.bind, Except.bind] at h
    | ok ps =>
      simp only [analyze_mobility, hcalc, Bind.bind, Except.bind, Pure.pure, Except.pure,
        Except.ok.injEq, Prod.mk.injEq] at h
      rw [← h.1, ← h.2]

/-- Witness for C3 at concrete inputs: the boundary value 0.7 is High, and
on a concrete single-row run the category column is the category function
mapped over the potential column. -/
theorem C3_witness :
    mobility_category (some (0.7 : ℚ)) = "🟢 High Mobility" ∧
      (["🔴 Low Mobility"] : List String) = ([none] : List F).map mobility_category := by
  have hsingle : analyze_mobility (tableOfRows [1] [rowOnes]) =
      Except.ok ([none], ["🔴 Low Mobility"]) := by
    have hnorm : normalizePotential (rowRawScores [rowOnes]) = [none] :=
      normalizePotential_singleton _ ⟨_, rfl⟩
    rw [analyze_tableOfRows, hnorm]
    rfl
  have h := C3_category_thresholds 0
  exact ⟨(C3_category_thresholds 0.7).2.2.2.1,
    h.2.2.2.2.2 (tableOfRows [1] [rowOnes]) [none] ["🔴 Low Mobility"] hsingle⟩

/-- Claim C4: in every successful classification run the output labels are
exactly the model's integer predictions mapped row-by-row through the label
remap (no other transformation), the remap always sends 1 to the ARG label
and 0 to the Non-ARG label, and it is a bijection between {0, 1} and the
two labels. -/
theorem C4_label_remap (predict : Model) (t ft : Table)
    (hft : extract_features t = Except.ok ft)
    (labels : List (Option String)) (counts : List (String × Nat))
    (hrun : runClassification (some predict) t =
      Except.ok (Output.classified labels counts)) :
    labels = (predict ft).map labelMap ∧
      (∀ i : ℕ, labels[i]? = ((predict ft)[i]?).map labelMap) ∧
      labelMap 1 = some "🟢 ARG" ∧
      labelMap 0 = some "🔴 Non-ARG" ∧
      (some "🟢 ARG" : Option String) ≠ some "🔴 Non-ARG" ∧
      (∀ p q : ℤ, (p = 0 ∨ p = 1) → (q = 0 ∨ q = 1) → labelMap p = labelMap q →
        p = q) := by
  have hlab : labels = (predict ft).map labelMap := by
    simp only [runClassification, hft] at hrun
    by_cases hnode : hasCol t "Node" = true
    · simp only [hnode, if_true, Except.ok.injEq, Output.classified.injEq] at hrun
      exact hrun.1.symm
    · simp [hnode] at hrun
  refine ⟨hlab, ?_, rfl, rfl, by decide, ?_⟩
  · intro i
    rw [hlab, List.getElem?_map]
  · rintro p q (rfl | rfl) (rfl | rfl) h
    · rfl
    · exact absurd h (by decide)
    · exact absurd h (by decide)
    · rfl

/-- Witness for C4 on a concrete run: the model predicts [1, 0] on the
two-row sample table and the output labels are [ARG, Non-ARG]. -/
theorem C4_witness :
    ([some "🟢 ARG", some "🔴 Non-ARG"] : List (Option String)) =
      ([(1 : ℤ), 0]).map labelMap ∧
      labelMap 1 = some "🟢 ARG" ∧ labelMap 0 = some "🔴 Non-ARG" := by
  have h := C4_label_remap (fun _ => [(1 : ℤ), 0]) (tableOfRows [1, 2] sampleRows)
    (required_columns.map
      (fun col => (col, (getCol (tableOfRows [1, 2] sampleRows) col).getD [])))
    (by decide)
    [some "🟢 ARG", some "🔴 Non-ARG"]
    (value_counts_opt [some "🟢 ARG", some "🔴 Non-ARG"])
    (by decide)
  exact ⟨h.1, h.2.2.1, h.2.2.2.1⟩

lemma length_rowRawScores (rows : List Row) :
    (rowRawScores rows).length = rows.length := by
  simp [rowRawScores, rawMobilityScores]

/-- Claim C8: on every nonempty batch whose computed raw mobility scores are
not all identical (batch maximum differs from batch minimum), every row's
mobility_potential is a real value in the closed interval [0, 1]. -/
theorem C8_potential_in_unit_interval (node : List ℚ) (rows : List Row)
    (hne : rows ≠ [])
    (hMm : fListMax (rowRawScores rows) ≠ fListMin (rowRawScores rows)) :
    ∀ pots, calcMobilityPotential (tableOfRows node rows) = Except.ok pots →
      ∀ x ∈ pots, x ≠ none ∧ 0 ≤ x.getD 0 ∧ x.getD 0 ≤ 1 := by
  have hDBN : qListMax (rows.map Row.Degree) ≠ 0 ∧
      qListMax (rows.map Row.BetweennessCentrality) ≠ 0 ∧
      qListMax (rows.map Row.NeighborhoodConnectivity) ≠ 0 := by
    by_contra hcon
    have hzero : qListMax (rows.map Row.Degree) = 0 ∨
        qListMax (rows.map Row.BetweennessCentrality) = 0 ∨
        qListMax (rows.map Row.NeighborhoodConnectivity) = 0 := by tauto
    have hall := rowRawScores_all_none rows hne hzero
    exact hMm (by rw [fListMax_all_none _ hall, fListMin_all_none _ hall])
  obtain ⟨hD, hB, hN⟩ := hDBN
  have hraws := rowRawScores_eq_spec rows hne hD hB hN
  have hlne : rows.map (specRawScore rows) ≠ [] := by simpa using hne
  have hMax : fListMax (rowRawScores rows) = some (specMax rows) := by
    rw [hraws]
    exact fListMax_map_some _ hlne
  have hMin : fListMin (rowRawScores rows) = some (specMin rows) := by
    rw [hraws]
    exact fListMin_map_some _ hlne
  have hMMq : specMax rows ≠ specMin rows := by
    intro he
    exact hMm (by rw [hMax, hMin, he])
  have hlt : specMin rows < specMax rows :=
    lt_of_le_of_ne (qListMin_le_qListMax _ hlne) (Ne.symm hMMq)
  intro pots hok
  rw [calc_spec node rows hne hD hB hN (sub_ne_zero.mpr hMMq)] at hok
  have hpots := (Except.ok.injEq _ _).mp hok
  subst hpots
  intro x hx
  rw [List.mem_map] at hx
  obtain ⟨q, hq, rfl⟩ := hx
  rw [List.mem_map] at hq
  obtain ⟨r, hr, rfl⟩ := hq
  have hmem : specRawScore rows r ∈ rows.map (specRawScore rows) :=
    List.mem_map_of_mem _ hr
  have h1 : specMin rows ≤ specRawScore rows r := qListMin_le _ _ hmem
  have h2 : specRawScore rows r ≤ specMax rows := le_qListMax _ _ hmem
  have hpos : 0 < specMax rows - specMin rows := sub_pos.mpr hlt
  refine ⟨by simp, ?_, ?_⟩
  · simp only [Option.getD_some]
    exact div_nonneg (sub_nonneg.mpr h1) (le_of_lt hpos)
  · simp only [Option.getD_some]
    rw [div_le_one hpos]
    exact sub_le_sub_right h2 _

/-- Witness for C8 on the concrete sample batch: the raw scores spread, and
row 0's potential 0 is a real value in [0, 1]. -/
theorem C8_witness :
    fListMax (rowRawScores sampleRows) ≠ fListMin (rowRawScores sampleRows) ∧
      ((some (0 : ℚ) : F) ≠ none ∧
        0 ≤ (some (0 : ℚ) : F).getD 0 ∧ (some (0 : ℚ) : F).getD 0 ≤ 1) := by
  have hne : sampleRows ≠ [] := by simp [sampleRows]
  have hD : qListMax (sampleRows.map Row.Degree) ≠ 0 := by
    norm_num [qListMax, sampleRows]
  have hB : qListMax (sampleRows.map Row.BetweennessCentrality) ≠ 0 := by
    norm_num [qListMax, sampleRows]
  have hN : qListMax (sampleRows.map Row.NeighborhoodConnectivity) ≠ 0 := by
    norm_num [qListMax, sampleRows]
  have hlne : sampleRows.map (specRawScore sampleRows) ≠ [] := by simp [sampleRows]
  have hMM : specMax sampleRows ≠ specMin sampleRows := by
    norm_num [specMax, qListMax, specRawScore, specMin, qListMin, sampleRows]
  have hMm : fListMax (rowRawScores sampleRows) ≠ fListMin (rowRawScores sampleRows) := by
    rw [rowRawScores_eq_spec sampleRows hne hD hB hN, fListMax_map_some _ hlne,
      fListMin_map_some _ hlne]
    simp only [ne_eq, Option.some.injEq]
    exact hMM
  have hg : (sampleRows.map (fun r => (specRawScore sampleRows r - specMin sampleRows) /
      (specMax sampleRows - specMin sampleRows))).map some = [some 0, some 1] := by
    norm_num [specMax, qListMax, specRawScore, specMin, qListMin, sampleRows]
  have hcalc : calcMobilityPotential (tableOfRows [1, 2] sampleRows) =
      Except.ok [some 0, some 1] := by
    rw [calc_spec [1, 2] sampleRows hne hD hB hN (sub_ne_zero.mpr hMM), hg]
  have happ := C8_potential_in_unit_interval [1, 2] sampleRows hne hMm
    [some 0, some 1] hcalc (some 0) (by simp)
  exact ⟨hMm, happ⟩

/-- Claim C9: for every successful run of either task on an uploaded table
of n feature rows — the model returning one label in {0, 1} per row for the
classification task — the per-category counts of the distribution summary
sum exactly to n. -/
theorem C9_counts_sum (predict : Model) (node : List ℚ) (rows : List Row)
    (hlen : ∀ ft, extract_features (tableOfRows node rows) = Except.ok ft →
      (predict ft).length = rows.length)
    (hvals : ∀ ft, extract_features (tableOfRows node rows) = Except.ok ft →
      ∀ p ∈ predict ft, p = 0 ∨ p = 1) :
    (∀ out, runPipeline (some predict) TaskChoice.classification (tableOfRows node rows) =
        Except.ok out → sumCounts out.summary = rows.length) ∧
      (∀ (model : Option Model) out,
        runPipeline model TaskChoice.mobility (tableOfRows node rows) =
          Except.ok out → sumCounts out.summary = rows.length) := by
  have hall : required_columns.all (fun c => hasCol (tableOfRows node rows) c) = true := rfl
  have hft := extract_features_ok (tableOfRows node rows) hall
  have hnode : hasCol (tableOfRows node rows) "Node" = true := rfl
  constructor
  · intro out hrun
    simp only [runPipeline, runClassification, hft, hnode, if_true] at hrun
    have hout := (Except.ok.injEq _ _).mp hrun
    rw [← hout]
    simp only [Output.summary]
    rw [sumCounts_value_counts_opt]
    · rw [List.length_map]
      exact hlen _ hft
    · intro x hx
      rw [List.mem_map] at hx
      obtain ⟨p, hp, rfl⟩ := hx
      rcases hvals _ hft p hp with rfl | rfl
      · simp [labelMap]
      · simp [labelMap]
  · intro model out hrun
    have hmob : runPipeline model TaskChoice.mobility (tableOfRows node rows) =
        runMobility (tableOfRows node rows) := rfl
    rw [hmob] at hrun
    simp only [runMobility, analyze_tableOfRows, hnode, if_true] at hrun
    have hout := (Except.ok.injEq _ _).mp hrun
    rw [← hout]
    simp only [Output.summary]
    rw [sumCounts_value_counts, List.length_map, normalizePotential, List.length_map,
      length_rowRawScores]

/-- Witness for C9 on the concrete sample batch: both tasks produce
distribution summaries whose counts sum to 2. -/
theorem C9_counts_sum_witness :
    sumCounts (Output.classified ([(1 : ℤ), 0].map labelMap)
      (value_counts_opt ([(1 : ℤ), 0].map labelMap))).summary = 2 ∧
      sumCounts (Output.scored (normalizePotential (rowRawScores sampleRows))
        ((normalizePotential (rowRawScores sampleRows)).map mobility_category)
        (value_counts ((normalizePotential (rowRawScores sampleRows)).map
          mobility_category))).summary = 2 := by
  have h := C9_counts_sum (fun _ => [(1 : ℤ), 0]) [1, 2] sampleRows
    (fun ft hft => rfl)
    (fun ft hft p hp => by
      simp only [List.mem_cons, List.not_mem_nil, or_false] at hp
      rcases hp with rfl | rfl
      · right
        rfl
      · left
        rfl)
  exact ⟨h.1 _ rfl, h.2 none _ rfl⟩

/-- Claim C10: on a batch with at least two distinct spec raw scores (and
nonzero batch maxima), min-max normalization attains its extremes: any row
whose raw score equals the batch minimum gets potential exactly 0, and any
row whose raw score equals the batch maximum gets potential exactly 1 and
category High. -/
theorem C10_extremes (node : List ℚ) (rows : List Row) (hne : rows ≠ [])
    (hD : qListMax (rows.map Row.Degree) ≠ 0)
    (hB : qListMax (rows.map Row.BetweennessCentrality) ≠ 0)
    (hN : qListMax (rows.map Row.NeighborhoodConnectivity) ≠ 0)
    (hMm : specMax rows ≠ specMin rows) :
    ∀ pots cats, analyze_mobility (tableOfRows node rows) = Except.ok (pots, cats) →
      ∀ i, ∀ hi : i < rows.length,
        (specRawScore rows (rows.get ⟨i, hi⟩) = specMin rows →
          pots[i]? = some (some 0)) ∧
        (specRawScore rows (rows.get ⟨i, hi⟩) = specMax rows →
          pots[i]? = some (some 1) ∧ cats[i]? = some "🟢 High Mobility") := by
  intro pots cats hrun i hi
  have hsub : specMax rows - specMin rows ≠ 0 := sub_ne_zero.mpr hMm
  have hform : normalizePotential (rowRawScores rows) =
      (rows.map (fun r => (specRawScore rows r - specMin rows) /
        (specMax rows - specMin rows))).map some := by
    have h := calc_spec node rows hne hD hB hN hsub
    rw [calc_tableOfRows] at h
    exact (Except.ok.injEq _ _).mp h
  rw [analyze_tableOfRows] at hrun
  have hpair := (Except.ok.injEq _ _).mp hrun
  have hpots : pots = (rows.map (fun r => (specRawScore rows r - specMin rows) /
      (specMax rows - specMin rows))).map some := by
    rw [← (Prod.mk.injEq _ _ _ _).mp hpair |>.1, hform]
  have hcats : cats = pots.map mobility_category := by
    rw [← (Prod.mk.injEq _ _ _ _).mp hpair |>.2,
      ← (Prod.mk.injEq _ _ _ _).mp hpair |>.1]
  have hpotsi : pots[i]? = some (some ((specRawScore rows (rows.get ⟨i, hi⟩) -
      specMin rows) / (specMax rows - specMin rows))) := by
    rw [hpots, List.getElem?_map, List.getElem?_map, List.getElem?_eq_getElem hi]
    rfl
  constructor
  · intro hmin
    rw [hpotsi, hmin, sub_self, zero_div]
  · intro hmax
    have h1 : pots[i]? = some (some 1) := by
      rw [hpotsi, hmax, div_self hsub]
    refine ⟨h1, ?_⟩
    rw [hcats, List.getElem?_map, h1]
    have : mobility_category (some 1) = "🟢 High Mobility" := by
      norm_num [mobility_category, fGeQ]
    simp [this]

/-- Witness for C10 on the concrete sample batch: row 1 attains the batch
maximum raw score, its potential is exactly 1 and its category High. -/
theorem C10_extremes_witness :
    specRawScore sampleRows (sampleRows.get ⟨1, by norm_num [sampleRows]⟩) =
      specMax sampleRows ∧
      (normalizePotential (rowRawScores sampleRows))[1]? = some (some 1) ∧
      ((normalizePotential (rowRawScores sampleRows)).map mobility_category)[1]? =
        some "🟢 High Mobility" := by
  have hne : sampleRows ≠ [] := by simp [sampleRows]
  have hD : qListMax (sampleRows.map Row.Degree) ≠ 0 := by
    norm_num [qListMax, sampleRows]
  have hB : qListMax (sampleRows.map Row.BetweennessCentrality) ≠ 0 := by
    norm_num [qListMax, sampleRows]
  have hN : qListMax (sampleRows.map Row.NeighborhoodConnectivity) ≠ 0 := by
    norm_num [qListMax, sampleRows]
  have hMM : specMax sampleRows ≠ specMin sampleRows := by
    norm_num [specMax, qListMax, specRawScore, specMin, qListMin, sampleRows]
  have hmax : specRawScore sampleRows (sampleRows.get ⟨1, by norm_num [sampleRows]⟩) =
      specMax sampleRows := by
    norm_num [specMax, qListMax, specRawScore, specMin, qListMin, sampleRows]
  have happ := (C10_extremes [1, 2] sampleRows hne hD hB hN hMM
    (normalizePotential (rowRawScores sampleRows))
    ((normalizePotential (rowRawScores sampleRows)).map mobility_category)
    (analyze_tableOfRows [1, 2] sampleRows) 1 (by norm_num [sampleRows])).2 hmax
  exact ⟨hmax, happ.1, happ.2⟩

/-- Witness for C5 at a concrete single-row table. -/
theorem C5_nan_propagates_witness :
    analyze_mobility (tableOfRows [1] [rowOnes]) =
      Except.ok ([none], ["🔴 Low Mobility"]) ∧
      (runPipeline none TaskChoice.mobility (tableOfRows [1] [rowOnes])).isOk = true :=
  C5_nan_propagates 1 rowOnes
